import Mathlib

/-!
Verification development for the effect-decomposition and resampling
inference engine of the statistics scripts (`mediation.py`,
`serial_mediation.py`, `moderated_mediation.py`, `moderation.py`).

The pure numeric core is embedded over `ℚ` (exact arithmetic in place of
IEEE floats); the quantities that the source obtains from `numpy`/`scipy`
square roots or quantile functions are embedded over `ℝ` or kept as
abstract function parameters.  The ordinary-least-squares fitter is an
external collaborator of the engine (`statsmodels` / `numpy.linalg`), so
it is modelled either as an abstract function parameter or through its
defining normal-equations contract `IsOLS`.
-/

/-! ### Basic sample statistics (numpy primitives used by the engine) -/

/-- Mean of a list of rationals (`np.mean`). -/
def meanQ (l : List ℚ) : ℚ := l.sum / l.length

/-- Sample variance with the `n - 1` divisor (`np.std(valid, ddof=1)` squared).
The source reports `boot_se = np.std(valid, ddof=1)`; we carry its square so
that the embedding stays in exact rational arithmetic, and `boot_se` is the
(real) square root of this value. -/
def sampleVar (l : List ℚ) : ℚ :=
  ((l.map (fun x => (x - meanQ l) ^ 2)).sum) / ((l.length : ℚ) - 1)

/-- Empirical percentile with linear interpolation, the default method of
`np.percentile`: for sorted data `s` of length `n` and percentage `q`, the
result interpolates between the entries at positions `⌊h⌋` and `⌊h⌋ + 1`
where `h = (n - 1) * q / 100`, clamping at the last entry. -/
def percentile (xs : List ℚ) (q : ℚ) : ℚ :=
  let s := List.insertionSort (fun a b => a ≤ b) xs
  if s.length = 0 then 0
  else
    let h : ℚ := ((s.length : ℚ) - 1) * q / 100
    let i : ℕ := (⌊h⌋).toNat
    let lo := s.getD i 0
    let hi := s.getD (i + 1) lo
    lo + (h - (i : ℚ)) * (hi - lo)

/-! ### Bootstrap aggregation (`_ci_from_boots`, serial_mediation.py 251-262;
the same collect / gate-at-10 / sd / percentile-pair logic is inlined at
mediation.py 314-318 and moderated_mediation.py 459-467).

A bootstrap draw that failed or produced a non-finite float is modelled as
`none`; `filterMap id` is `boots[np.isfinite(boots)]`. -/

/-- Aggregate a bootstrap distribution into `(boot_se², ci_lower, ci_upper)`:
`none` when fewer than 10 finite draws exist, otherwise the sample variance
(whose square root the source reports as `boot_se`) and the
`(alphaTail·100, (1-alphaTail)·100)` percentile pair. -/
def ciFromBoots (boots : List (Option ℚ)) (alphaTail : ℚ) :
    Option (ℚ × ℚ × ℚ) :=
  if (boots.filterMap id).length < 10 then none
  else some (sampleVar (boots.filterMap id),
             percentile (boots.filterMap id) (alphaTail * 100),
             percentile (boots.filterMap id) ((1 - alphaTail) * 100))

/-- Significance flag from a CI (`_make_significant`, serial_mediation.py
498-501): `none` when the bounds are `None`, otherwise
`not (ci_lower <= 0 <= ci_upper)`. -/
def significantOf : Option (ℚ × ℚ × ℚ) → Option Bool
  | none => none
  | some (_, lo, hi) => some (decide (¬ (lo ≤ 0 ∧ 0 ≤ hi)))

/-! ### Indirect-path enumeration and point estimates
(`_indirect_paths`, serial_mediation.py 127-143; `_point_ests`, 449-458). -/

/-- All contiguous ordered sub-chains of the mediator list, of every length
`≥ 1`, in the source's order: by length, then by start position
(`_indirect_paths`). -/
def indirectPaths {α : Type} (meds : List α) : List (List α) :=
  (List.range meds.length).flatMap
    (fun l => (List.range (meds.length - l)).map
      (fun s => (meds.drop s).take (l + 1)))

/-- Product of the `d` coefficients along the consecutive pairs of a chain
(the inner loop of the point-estimate computation). -/
def dChain {α : Type} (d : α → α → ℚ) : List α → ℚ
  | [] => 1
  | [_] => 1
  | u :: v :: t => d u v * dChain d (v :: t)

/-- Point estimate of one indirect chain (serial_mediation.py 452-458):
`a` coefficient of the first mediator, times the `d` coefficients of the
consecutive pairs, times the `b` coefficient of the last mediator. -/
def pointEst {α : Type} (a : α → ℚ) (d : α → α → ℚ) (b : α → ℚ) :
    List α → ℚ
  | [] => 0
  | u :: t => a u * dChain d (u :: t) * b ((u :: t).getLast (List.cons_ne_nil u t))

/-! ### The OLS collaborator and its contract

The engine treats the least-squares fitter as an external primitive
(spec section 6): given design columns (with an explicit constant column)
and a response, it returns one coefficient per column.  `IsOLS` is the
defining property of that primitive: the residual is orthogonal to every
design column (the normal equations). -/

/-- Dot product of two equal-length columns. -/
def dot (u v : List ℚ) : ℚ := (List.zipWith (fun a b => a * b) u v).sum

/-- The constant (intercept) column. -/
def onesQ (n : ℕ) : List ℚ := List.replicate n 1

/-- Linear combination of design columns with the given coefficients. -/
def predVec (cols : List (List ℚ)) (coefs : List ℚ) (n : ℕ) : List ℚ :=
  (List.zipWith (fun w c => c.map (fun v => w * v)) coefs cols).foldl
    (fun acc u => List.zipWith (fun a b => a + b) acc u)
    (List.replicate n 0)

/-- Residual vector of a fit. -/
def residVec (y : List ℚ) (cols : List (List ℚ)) (coefs : List ℚ) : List ℚ :=
  List.zipWith (fun a b => a - b) y (predVec cols coefs y.length)

/-- Normal-equations contract of the external OLS primitive: one coefficient
per design column, and the residual orthogonal to every design column. -/
def IsOLS (cols : List (List ℚ)) (y coefs : List ℚ) : Prop :=
  coefs.length = cols.length ∧ ∀ c ∈ cols, dot c (residVec y cols coefs) = 0

instance (cols : List (List ℚ)) (y coefs : List ℚ) :
    Decidable (IsOLS cols y coefs) := by
  unfold IsOLS
  infer_instance

/-! ### Serial-mediation full-sample fit (serial_mediation.py 378-460),
parametric in the OLS collaborator.  The design of mediator `i` is
`const + X + M₁..M_{i-1} + covariates`; the outcome design is
`const + X + all mediators + covariates`; the total-effect design is
`const + X + covariates`.  Coefficients are read by position exactly as the
source does (`params[1]` for `a`, `params[j+2]` for `d`, etc.). -/

/-- Fitted coefficient vector of the `i`-th mediator equation. -/
def serialMedEqCoefs (ols : List (List ℚ) → List ℚ → List ℚ)
    (x : List ℚ) (meds covs : List (List ℚ)) (i : ℕ) : List ℚ :=
  ols ((onesQ x.length :: x :: meds.take i) ++ covs) (meds.getD i [])

/-- Fitted coefficient vector of the outcome equation. -/
def serialYEqCoefs (ols : List (List ℚ) → List ℚ → List ℚ)
    (x : List ℚ) (meds covs : List (List ℚ)) (y : List ℚ) : List ℚ :=
  ols ((onesQ x.length :: x :: meds) ++ covs) y

/-- Fitted coefficient vector of the total-effect equation. -/
def serialTotalEqCoefs (ols : List (List ℚ) → List ℚ → List ℚ)
    (x : List ℚ) (covs : List (List ℚ)) (y : List ℚ) : List ℚ :=
  ols ((onesQ x.length :: [x]) ++ covs) y

/-- `a_i`: the X coefficient (position 1) of mediator `i`'s equation. -/
def serialA (ols : List (List ℚ) → List ℚ → List ℚ)
    (x : List ℚ) (meds covs : List (List ℚ)) (i : ℕ) : ℚ :=
  (serialMedEqCoefs ols x meds covs i).getD 1 0

/-- `d_{j,i}`: coefficient of prior mediator `j` (position `j + 2`, skipping
const and X) in mediator `i`'s equation. -/
def serialD (ols : List (List ℚ) → List ℚ → List ℚ)
    (x : List ℚ) (meds covs : List (List ℚ)) (j i : ℕ) : ℚ :=
  (serialMedEqCoefs ols x meds covs i).getD (j + 2) 0

/-- `b_i`: coefficient of mediator `i` (position `i + 2`) in the outcome
equation. -/
def serialB (ols : List (List ℚ) → List ℚ → List ℚ)
    (x : List ℚ) (meds covs : List (List ℚ)) (y : List ℚ) (i : ℕ) : ℚ :=
  (serialYEqCoefs ols x meds covs y).getD (i + 2) 0

/-- Direct effect `c'`: the X coefficient of the outcome equation. -/
def serialCPrime (ols : List (List ℚ) → List ℚ → List ℚ)
    (x : List ℚ) (meds covs : List (List ℚ)) (y : List ℚ) : ℚ :=
  (serialYEqCoefs ols x meds covs y).getD 1 0

/-- Total effect `c`: the X coefficient of the total-effect equation. -/
def serialC (ols : List (List ℚ) → List ℚ → List ℚ)
    (x : List ℚ) (covs : List (List ℚ)) (y : List ℚ) : ℚ :=
  (serialTotalEqCoefs ols x covs y).getD 1 0

/-- Point estimates of all enumerated indirect chains, mediators indexed by
position. -/
def serialPointEsts (ols : List (List ℚ) → List ℚ → List ℚ)
    (x : List ℚ) (meds covs : List (List ℚ)) (y : List ℚ) : List ℚ :=
  (indirectPaths (List.range meds.length)).map
    (pointEst (serialA ols x meds covs) (serialD ols x meds covs)
      (serialB ols x meds covs y))

/-- Total indirect effect: the sum over all enumerated chains
(`_total_indirect_est`, serial_mediation.py 460). -/
def serialTotalIndirect (ols : List (List ℚ) → List ℚ → List ℚ)
    (x : List ℚ) (meds covs : List (List ℚ)) (y : List ℚ) : ℚ :=
  (serialPointEsts ols x meds covs y).sum

/-- Total indirect effect of the parallel topology (mediation.py 397-400):
the sum of the per-mediator `a·b` products. -/
def parallelTotalIndirect (a b : ℕ → ℚ) (k : ℕ) : ℚ :=
  ((List.range k).map (fun i => a i * b i)).sum

/-! ### Concrete dataset witnessing the serial `k = 3` decomposition gap.

Eight observations built from mutually orthogonal ±1 contrast vectors, so
that every equation of the serial system fits exactly with integer
coefficients (`a_i = 1`, all `d = 1`, all `b = 1`, `c' = 1`), and the
total-effect regression gives `c = 8`. -/

/-- Predictor column. -/
def c4x : List ℚ := [1, 1, 1, 1, -1, -1, -1, -1]

/-- First mediator column. -/
def c4m1 : List ℚ := [2, 2, 0, 0, 0, 0, -2, -2]

/-- Second mediator column. -/
def c4m2 : List ℚ := [4, 2, 2, 0, 0, -2, -2, -4]

/-- Third mediator column. -/
def c4m3 : List ℚ := [8, 4, 2, 2, 0, -4, -6, -6]

/-- Outcome column. -/
def c4y : List ℚ := [16, 8, 6, 2, -2, -6, -12, -12]

/-- The ordered mediator list. -/
def c4meds : List (List ℚ) := [c4m1, c4m2, c4m3]

/-- An OLS collaborator for the five designs that the serial engine submits
on this dataset; its outputs satisfy `IsOLS` at every call (checked in the
counterexample theorem), so it agrees with the unique least-squares
solution on each (full-column-rank) design. -/
def c4Oracle (cols : List (List ℚ)) (resp : List ℚ) : List ℚ :=
  if cols.length = 3 then [0, 1, 1]
  else if cols.length = 4 then [0, 1, 1, 1]
  else if cols.length = 5 then [0, 1, 1, 1, 1]
  else if resp = c4y then [0, 8] else [0, 1]

/-! ### Bootstrap driver (mediation.py `_bootstrap_indirect`, 104-136)

The per-iteration refit can fail (`SingularDesign` from the OLS
collaborator); the source wraps each iteration in `try/except` and leaves
`nan` in the slot, modelled by `Option`. -/

/-- Failure mode of the external OLS primitive inside a resample. -/
inductive FitError
  | singularDesign

/-- The fallible OLS collaborator used inside the bootstrap loop. -/
def OLSExc : Type := List (List ℚ) → List ℚ → Except FitError (List ℚ)

/-- Row-gather of a column at the resampled index vector
(`df.iloc[idx]`). -/
def gather (c : List ℚ) (idx : List ℕ) : List ℚ :=
  idx.map (fun i => c.getD i 0)

/-- Columnar data of a (parallel) mediation analysis. -/
structure MedDataP where
  x : List ℚ
  meds : List (List ℚ)
  y : List ℚ
  covs : List (List ℚ)

/-- Design of the `a`-path regression on a resample:
`const + X + covariates` (`a_rhs`, mediation.py 113). -/
def medAColsOf (dd : MedDataP) (idx : List ℕ) : List (List ℚ) :=
  onesQ idx.length :: gather dd.x idx :: dd.covs.map (fun c => gather c idx)

/-- Design of the direct-model regression on a resample:
`const + X + all mediators + covariates` (`direct_rhs`, mediation.py 114). -/
def medDColsOf (dd : MedDataP) (idx : List ℕ) : List (List ℚ) :=
  onesQ idx.length :: gather dd.x idx ::
    (dd.meds.map (fun c => gather c idx) ++ dd.covs.map (fun c => gather c idx))

/-- One bootstrap iteration for mediator `mn` (mediation.py 116-134): refit
both regressions on the resample and return `a·b`, or `none` when either
refit raises (the `except` branch leaves `nan` in the slot). -/
def bootIterMed (ols : OLSExc) (dd : MedDataP) (mn : ℕ) (idx : List ℕ) :
    Option ℚ :=
  match ols (medAColsOf dd idx) (gather (dd.meds.getD mn []) idx),
        ols (medDColsOf dd idx) (gather dd.y idx) with
  | .ok pa, .ok pd => some (pa.getD 1 0 * pd.getD (mn + 2) 0)
  | _, _ => none

/-- The whole bootstrap loop: one entry per iteration, independent of the
other iterations' outcomes. -/
def bootstrapIndirect (ols : OLSExc) (dd : MedDataP) (mn : ℕ)
    (idxs : List (List ℕ)) : List (Option ℚ) :=
  idxs.map (bootIterMed ols dd mn)

/-- The index vectors of all `B` iterations, drawn from a deterministic
pseudo-random stream seeded with a fixed constant
(`rng.integers(0, n, size=n)` per iteration). -/
def drawIdx (stream : ℕ → ℕ → ℕ) (seed B n : ℕ) : List (List ℕ) :=
  (List.range B).map (fun b => (List.range n).map
    (fun j => stream seed (b * n + j) % n))

/-- The per-mediator bootstrap CI of mediation.py: the resampling is driven
by `np.random.default_rng(20240101)` (line 273), a fixed seed; the ambient
randomness source of the process is taken as a parameter and never used. -/
def medIndirectBoot (ambient : ℕ → ℕ) (stream : ℕ → ℕ → ℕ) (ols : OLSExc)
    (dd : MedDataP) (mn B : ℕ) (ciLevel : ℚ) : Option (ℚ × ℚ × ℚ) :=
  ciFromBoots (bootstrapIndirect ols dd mn (drawIdx stream 20240101 B dd.x.length))
    ((1 - ciLevel) / 2)

/-! ### Moderated-mediation table operations (moderated_mediation.py)

Full-sample preparation (lines 249-262): X and W are mean-centered once,
then the interaction columns `X·W` and `M·W` are formed.  The bootstrap
step (lines 415-421) gathers rows of this prepared table and recomputes
the two interaction columns from the gathered values. -/

/-- Mean-center a column at its own mean. -/
def centerCol (c : List ℚ) : List ℚ := c.map (fun v => v - meanQ c)

/-- The working table of a moderated mediation analysis. -/
structure MMTable where
  x : List ℚ
  m : List ℚ
  w : List ℚ
  y : List ℚ
  xw : List ℚ
  mw : List ℚ

/-- Full-sample preparation: optional mean-centering of X and W
(lines 249-253), then the interaction columns (lines 259-262). -/
def prepTable (centering : Bool) (x m w y : List ℚ) : MMTable :=
  let xc := if centering then centerCol x else x
  let wc := if centering then centerCol w else w
  ⟨xc, m, wc, y, List.zipWith (fun a b => a * b) xc wc,
    List.zipWith (fun a b => a * b) m wc⟩

/-- One bootstrap resample of the prepared table (lines 416-421): gather
rows at `idx`, then recompute the interaction columns from the gathered
values.  The gathered X and W values are the full-sample-centered ones;
no re-centering happens here. -/
def resampleTable (t : MMTable) (idx : List ℕ) : MMTable :=
  let xs := gather t.x idx
  let ms := gather t.m idx
  let ws := gather t.w idx
  let ys := gather t.y idx
  ⟨xs, ms, ws, ys, List.zipWith (fun a b => a * b) xs ws,
    List.zipWith (fun a b => a * b) ms ws⟩

/-- Modelled from the spec: the resampled table that the specification
describes, with resample-specific centering — gather the raw rows first and
run the whole preparation (centering included) on the gathered rows. -/
def resampleTableSpec (centering : Bool) (x m w y : List ℚ)
    (idx : List ℕ) : MMTable :=
  prepTable centering (gather x idx) (gather m idx) (gather w idx)
    (gather y idx)

/-! ### Index of moderated mediation (moderated_mediation.py 506-511 with
the coefficient gating of 355-358, and the bootstrap statistic 439-450). -/

/-- The three moderated-mediation model types (`"1"`, `"2"`, `"3"`). -/
inductive MMModel
  | m1
  | m2
  | m3
deriving DecidableEq

/-- Whether the a-path carries the X·W interaction (models 1 and 3). -/
def aHasXw : MMModel → Bool
  | .m1 => true
  | .m2 => false
  | .m3 => true

/-- Whether the b-path carries the M·W interaction (models 2 and 3). -/
def bHasMw : MMModel → Bool
  | .m1 => false
  | .m2 => true
  | .m3 => true

/-- `_b_xw` (line 356): the fitted a-path interaction coefficient, or `0`
when the a-path is unmoderated. -/
def gatedBxw (mt : MMModel) (v : ℚ) : ℚ := if aHasXw mt then v else 0

/-- `_b_mw` (line 358): the fitted b-path interaction coefficient, or `0`
when the b-path is unmoderated. -/
def gatedBmw (mt : MMModel) (v : ℚ) : ℚ := if bHasMw mt then v else 0

/-- `_imm_est` (lines 506-511), from the base X coefficient of the mediator
equation, the (raw) fitted interaction coefficients, and the base mediator
coefficient of the outcome equation. -/
def immEst (mt : MMModel) (bxa bxwFit bmb bmwFit : ℚ) : ℚ :=
  let bxw := gatedBxw mt bxwFit
  let bmw := gatedBmw mt bmwFit
  match mt with
  | .m1 => bxw * bmb
  | .m2 => bxa * bmw
  | .m3 => bxw * bmw

/-- The bootstrap `imm` statistic (lines 429-450): the same gating and the
same per-model product, recomputed from the resample's coefficients. -/
def bootImmStat (mt : MMModel) (bxa bxwFit bmb bmwFit : ℚ) : ℚ :=
  let bxwa := if aHasXw mt then bxwFit else 0
  let bmwb := if bHasMw mt then bmwFit else 0
  match mt with
  | .m1 => bxwa * bmb
  | .m2 => bxa * bmwb
  | .m3 => bxwa * bmwb

/-- Modelled from the spec's words: first-stage `a1·b0`, second-stage
`a0·b1`, dual-stage `a1·b1`, where `a1`/`b1` are the (already gated)
interaction coefficients. -/
def immClaim (mt : MMModel) (a0 a1 b0 b1 : ℚ) : ℚ :=
  match mt with
  | .m1 => a1 * b0
  | .m2 => a0 * b1
  | .m3 => a1 * b1

/-! ### Insufficient-data guards (mediation.py 213-222,
moderated_mediation.py 224-232).  Rows with any missing value are dropped
(`dropna`), then the analysis aborts before any fit when the complete-case
count is below the per-analysis minimum. -/

/-- Fatal pre-fit errors of an analysis. -/
inductive AnalysisError
  | insufficientData
deriving DecidableEq

/-- A row survives listwise deletion exactly when it has no missing entry. -/
def allSomeRow : List (Option ℚ) → Option (List ℚ)
  | [] => some []
  | none :: _ => none
  | some v :: t => (allSomeRow t).map (fun r => v :: r)

/-- Listwise deletion: keep exactly the rows with no missing entry. -/
def completeRows (rows : List (List (Option ℚ))) : List (List ℚ) :=
  rows.filterMap allSomeRow

/-- Column `c` of a row-major complete-case table. -/
def colOf (comp : List (List ℚ)) (c : ℕ) : List ℚ :=
  comp.map (fun r => r.getD c 0)

/-- The direct-model fit of mediation.py on the complete cases: outcome is
column `k + 1` (layout `[X, M₁..M_k, Y, covariates...]`), design is the
constant plus every other column. -/
def medFitAll (ols : List (List ℚ) → List ℚ → List ℚ) (k ncols : ℕ)
    (comp : List (List ℚ)) : List ℚ :=
  ols (onesQ comp.length ::
        ((List.range ncols).filter (fun c => decide (c ≠ k + 1))).map (colOf comp))
    (colOf comp (k + 1))

/-- mediation.py: `dropna`, then abort with `InsufficientData` when the
complete-case count is below `ncols + 2` (lines 213-222); only otherwise
is any fit performed. -/
def medAnalysis (ols : List (List ℚ) → List ℚ → List ℚ) (k ncols : ℕ)
    (rows : List (List (Option ℚ))) : Except AnalysisError (List ℚ) :=
  if (completeRows rows).length < ncols + 2 then
    .error .insufficientData
  else
    .ok (medFitAll ols k ncols (completeRows rows))

/-- The path-B fit of moderated_mediation.py (model 1 instantiation) on the
complete cases: outcome is column 3 (layout `[X, M, W, Y, covariates...]`),
design is the constant plus every other column. -/
def modmedFitAll (ols : List (List ℚ) → List ℚ → List ℚ) (ncols : ℕ)
    (comp : List (List ℚ)) : List ℚ :=
  ols (onesQ comp.length ::
        ((List.range ncols).filter (fun c => decide (c ≠ 3))).map (colOf comp))
    (colOf comp 3)

/-- moderated_mediation.py: `dropna`, then abort with `InsufficientData`
when the complete-case count is below `ncols + 3` (lines 224-232); only
otherwise is any fit performed. -/
def modmedAnalysis (ols : List (List ℚ) → List ℚ → List ℚ) (ncols : ℕ)
    (rows : List (List (Option ℚ))) : Except AnalysisError (List ℚ) :=
  if (completeRows rows).length < ncols + 3 then
    .error .insufficientData
  else
    .ok (modmedFitAll ols ncols (completeRows rows))

/-! ### Johnson-Neyman computation (moderation.py 334-403), over `ℝ`
because the root branch takes a real square root. -/

/-- The note attached to a Johnson-Neyman result; the source's fixed note
strings correspond one-to-one to these constructors. -/
inductive JNNote
  | negligible
  | noRealRoots
  | insideSig
  | outsideSig
deriving DecidableEq

/-- The Johnson-Neyman output record (`_jn_out`). -/
structure JNResult where
  lower : Option ℝ
  upper : Option ℝ
  pct : Option ℝ
  note : JNNote

/-- Leading quadratic coefficient `A = b_xw² - t_crit²·Var(b_xw)`
(line 346). -/
def jnQa (bxw tcrit vbxw : ℝ) : ℝ := bxw ^ 2 - tcrit ^ 2 * vbxw

/-- Linear quadratic coefficient
`B = 2·b_x·b_xw - 2·t_crit²·Cov(b_x, b_xw)` (line 347). -/
def jnQb (bx bxw tcrit cvxw : ℝ) : ℝ := 2 * bx * bxw - 2 * tcrit ^ 2 * cvxw

/-- Constant quadratic coefficient `C = b_x² - t_crit²·Var(b_x)`
(line 348). -/
def jnQc (bx tcrit vbx : ℝ) : ℝ := bx ^ 2 - tcrit ^ 2 * vbx

/-- Discriminant `B² - 4AC` (line 350). -/
def jnDisc (bx bxw vbx vbxw cvxw tcrit : ℝ) : ℝ :=
  jnQb bx bxw tcrit cvxw ^ 2 -
    4 * jnQa bxw tcrit vbxw * jnQc bx tcrit vbx

/-- Delta-method variance of the conditional slope at `w` (line 309). -/
def condSlopeVar (vbx vbxw cvxw w : ℝ) : ℝ :=
  vbx + w ^ 2 * vbxw + 2 * w * cvxw

/-- The two quadratic roots `(-B ∓ √disc) / (2A)` (lines 367-368). -/
noncomputable def jnRoots (bx bxw vbx vbxw cvxw tcrit : ℝ) : ℝ × ℝ :=
  ((-jnQb bx bxw tcrit cvxw - Real.sqrt (jnDisc bx bxw vbx vbxw cvxw tcrit)) /
      (2 * jnQa bxw tcrit vbxw),
   (-jnQb bx bxw tcrit cvxw + Real.sqrt (jnDisc bx bxw vbx vbxw cvxw tcrit)) /
      (2 * jnQa bxw tcrit vbxw))

/-- Whether the midpoint of the two bounds tests significant
(`abs(t_mid) > t_crit`, lines 373-378). -/
noncomputable def jnMidSig (bx bxw vbx vbxw cvxw tcrit : ℝ) : Prop :=
  let r := jnRoots bx bxw vbx vbxw cvxw tcrit
  let lo := min r.1 r.2
  let hi := max r.1 r.2
  let wmid := (lo + hi) / 2
  let seMid := Real.sqrt (max (condSlopeVar vbx vbxw cvxw wmid) 0)
  let tmid := if 0 < seMid then (bx + bxw * wmid) / seMid else 0
  |tmid| > tcrit

open Classical in
/-- The root branch of the Johnson-Neyman computation (lines 367-395): the
sorted roots as bounds, the midpoint-test side, and the percentage of
observed W values in the significant region. -/
noncomputable def jnMain (bx bxw vbx vbxw cvxw tcrit : ℝ) (wVec : List ℝ) :
    JNResult :=
  let r := jnRoots bx bxw vbx vbxw cvxw tcrit
  let lo := min r.1 r.2
  let hi := max r.1 r.2
  let cnt := if jnMidSig bx bxw vbx vbxw cvxw tcrit then
      (wVec.filter (fun w => decide (lo ≤ w ∧ w ≤ hi))).length
    else
      (wVec.filter (fun w => decide (w < lo ∨ hi < w))).length
  ⟨some lo, some hi, some (100 * (cnt : ℝ) / wVec.length),
    if jnMidSig bx bxw vbx vbxw cvxw tcrit then .insideSig else .outsideSig⟩

open Classical in
/-- The full Johnson-Neyman branch structure (`_jn_out`, lines 352-395):
`A = 0` gives the negligible-interaction record with null bounds; a
negative discriminant gives the no-real-roots record with null bounds;
otherwise the root branch `jnMain`. -/
noncomputable def jnOut (bx bxw vbx vbxw cvxw tcrit : ℝ) (wVec : List ℝ) :
    JNResult :=
  if jnQa bxw tcrit vbxw = 0 then ⟨none, none, none, .negligible⟩
  else if jnDisc bx bxw vbx vbxw cvxw tcrit < 0 then
    ⟨none, none, none, .noRealRoots⟩
  else jnMain bx bxw vbx vbxw cvxw tcrit wVec

/-- Modelled from the spec's words: the conditional effect of X on Y is
significant at moderator value `w` when `|slope| / SE` exceeds `t_crit`,
stated in the squared form `slope² > t_crit²·Var(slope)` (equivalent when
the variance is positive). -/
def sigAtW (bx bxw vbx vbxw cvxw tcrit w : ℝ) : Prop :=
  tcrit ^ 2 * condSlopeVar vbx vbxw cvxw w < (bx + bxw * w) ^ 2

/-- Mean of a list of reals (`np.mean`). -/
noncomputable def meanR (l : List ℝ) : ℝ := l.sum / l.length

/-! ### Sobel fallback when the bootstrap is disabled (mediation.py
321-341).  The normal quantile function `scipy.stats.norm.ppf` is an
external collaborator and is taken as a parameter. -/

/-- The Sobel delta-method standard error
`sqrt(b²·SE(a)² + a²·SE(b)²)` (lines 323-326). -/
noncomputable def sobelSE (a b sea seb : ℝ) : ℝ :=
  Real.sqrt (b ^ 2 * sea ^ 2 + a ^ 2 * seb ^ 2)

/-- The no-bootstrap branch: `boot_se` is the Sobel SE and the interval is
`a·b ∓ z·SE` with `z = ppf(1 - alpha_tail)` (lines 332-335); all three
fields are populated. -/
noncomputable def noBootCI (ppf : ℝ → ℝ) (ciLevel a b sea seb : ℝ) :
    Option ℝ × Option ℝ × Option ℝ :=
  (some (sobelSE a b sea seb),
   some (a * b - ppf (1 - (1 - ciLevel) / 2) * sobelSE a b sea seb),
   some (a * b + ppf (1 - (1 - ciLevel) / 2) * sobelSE a b sea seb))

open Classical in
/-- Significance from the (real-valued) interval, `none` when a bound is
missing (mediation.py 337-341). -/
noncomputable def significantOfR : Option ℝ × Option ℝ × Option ℝ → Option Bool
  | (_, some lo, some hi) => some (decide (¬ (lo ≤ 0 ∧ 0 ≤ hi)))
  | _ => none

/-! ### Concrete inputs used by witnesses and counterexamples -/

/-- Five rows of width 3, one of which has a missing entry, so four
complete cases remain after listwise deletion. -/
def c9rows : List (List (Option ℚ)) :=
  [[some 1, some 2, some 3], [some 2, some 1, some 4], [some 0, some 1, some 1],
   [some 3, some 2, some 0], [none, some 1, some 1]]

/-- Six rows of width 4, one of which has a missing entry, so five
complete cases remain after listwise deletion. -/
def c9rowsM : List (List (Option ℚ)) :=
  [[some 1, some 2, some 3, some 0], [some 2, some 1, some 4, some 1],
   [some 0, some 1, some 1, some 2], [some 3, some 2, some 0, some 1],
   [some 1, some 0, some 2, some 2], [some 1, some 1, none, some 1]]

/-- A tiny mediation dataset for the bootstrap-driver witnesses. -/
def c8dd : MedDataP := ⟨[1, 2], [[3, 4]], [5, 6], []⟩

/-! ### General helper lemmas -/

theorem listGetD_map {α β : Type} (f : α → β) (l : List α) (j : ℕ)
    (h : j < l.length) (d : β) (d' : α) :
    (l.map f).getD j d = f (l.getD j d') := by
  rw [List.getD_eq_getElem?_getD, List.getD_eq_getElem?_getD,
    List.getElem?_map, List.getElem?_eq_getElem h]
  rfl

theorem listGetD_set_ne {α : Type} (l : List α) (i j : ℕ) (v : α) (d : α)
    (hij : j ≠ i) : (l.set i v).getD j d = l.getD j d := by
  rw [List.getD_eq_getElem?_getD, List.getD_eq_getElem?_getD,
    List.getElem?_set_ne (fun h => hij h.symm)]

/-- Claim C3: for a fixed dataset and options, the bootstrap output is a
pure function of the analysis inputs and a pseudo-random stream seeded by
the fixed constant 20240101 (mediation.py line 273); the ambient
process-level randomness parameter is never consulted, so two runs that
differ only in ambient randomness coincide. -/
theorem bootstrap_seed_determinism (amb1 amb2 : ℕ → ℕ) (stream : ℕ → ℕ → ℕ)
    (ols : OLSExc) (dd : MedDataP) (mn B : ℕ) (ciLevel : ℚ) :
    medIndirectBoot amb1 stream ols dd mn B ciLevel
      = medIndirectBoot amb2 stream ols dd mn B ciLevel
    ∧ medIndirectBoot amb1 stream ols dd mn B ciLevel
      = ciFromBoots (bootstrapIndirect ols dd mn
          (drawIdx stream 20240101 B dd.x.length)) ((1 - ciLevel) / 2) :=
  ⟨rfl, rfl⟩

/-- Claim C7: the index of moderated mediation is `a1·b0` for model 1,
`a0·b1` for model 2 and `a1·b1` for model 3, where the interaction
coefficient of an unmoderated stage is taken as 0; the full-sample
estimate (moderated_mediation.py 506-511) and the per-resample bootstrap
statistic (lines 439-450) compute the same function. -/
theorem imm_model_formulas (mt : MMModel) (bxa bxwFit bmb bmwFit : ℚ) :
    immEst mt bxa bxwFit bmb bmwFit
      = immClaim mt bxa (gatedBxw mt bxwFit) bmb (gatedBmw mt bmwFit)
    ∧ bootImmStat mt bxa bxwFit bmb bmwFit = immEst mt bxa bxwFit bmb bmwFit
    ∧ (aHasXw mt = false → gatedBxw mt bxwFit = 0)
    ∧ (bHasMw mt = false → gatedBmw mt bmwFit = 0) := by
  cases mt <;>
    simp [immEst, bootImmStat, immClaim, gatedBxw, gatedBmw, aHasXw, bHasMw]

/-- Witness for C7 at model 1 with concrete coefficients. -/
theorem imm_model_formulas_witness :
    gatedBmw MMModel.m1 (5 : ℚ) = 0 ∧
      immEst MMModel.m1 2 3 4 5
        = immClaim MMModel.m1 2 (gatedBxw MMModel.m1 3) 4 (gatedBmw MMModel.m1 5) :=
  ⟨(imm_model_formulas MMModel.m1 2 3 4 5).2.2.2 rfl,
   (imm_model_formulas MMModel.m1 2 3 4 5).1⟩

/-- Claim C10: with the bootstrap disabled, all three CI fields of the
per-mediator indirect effect are populated: the standard error is the
Sobel delta-method value `sqrt(b²·SE(a)² + a²·SE(b)²)`, the interval is
`a·b ∓ z·SE` with `z` the normal quantile at `(1 + ci_level)/2`, and the
significance flag is computed from this interval (mediation.py 321-341). -/
theorem sobel_fallback_populates (ppf : ℝ → ℝ) (ciLevel a b sea seb : ℝ) :
    noBootCI ppf ciLevel a b sea seb
      = (some (sobelSE a b sea seb),
         some (a * b - ppf ((1 + ciLevel) / 2) * sobelSE a b sea seb),
         some (a * b + ppf ((1 + ciLevel) / 2) * sobelSE a b sea seb))
    ∧ sobelSE a b sea seb = Real.sqrt (b ^ 2 * sea ^ 2 + a ^ 2 * seb ^ 2)
    ∧ (significantOfR (noBootCI ppf ciLevel a b sea seb) = some true ↔
        ¬ (a * b - ppf ((1 + ciLevel) / 2) * sobelSE a b sea seb ≤ 0 ∧
           0 ≤ a * b + ppf ((1 + ciLevel) / 2) * sobelSE a b sea seb)) := by
  have harg : 1 - (1 - ciLevel) / 2 = (1 + ciLevel) / 2 := by ring
  have hno : noBootCI ppf ciLevel a b sea seb
      = (some (sobelSE a b sea seb),
         some (a * b - ppf ((1 + ciLevel) / 2) * sobelSE a b sea seb),
         some (a * b + ppf ((1 + ciLevel) / 2) * sobelSE a b sea seb)) := by
    unfold noBootCI
    rw [harg]
  refine ⟨hno, rfl, ?_⟩
  rw [hno]
  simp only [significantOfR, Option.some.injEq, decide_eq_true_eq]

/-- Claim C9: when the complete-case count after listwise deletion does
not exceed (number of estimated slope coefficients of the largest
equation) + 2, the analysis aborts with the insufficient-data error and
no fit is performed.  For mediation.py the largest equation regresses the
outcome on the other `ncols - 1` columns, so its slope-coefficient count
is `ncols - 1` and the source's guard `n < ncols + 2` (lines 217-222) is
exactly `n ≤ (ncols - 1) + 2`; for moderated_mediation.py (guard
`n < ncols + 3`, lines 227-232, model-3 largest equation has `ncols`
slope coefficients counting the two interaction columns) the guard is
exactly `n ≤ ncols + 2`.  The error branch returns before `medFitAll` /
`modmedFitAll` is ever applied. -/
theorem insufficient_data_before_fit :
    (∀ (ols : List (List ℚ) → List ℚ → List ℚ) (k ncols : ℕ)
       (rows : List (List (Option ℚ))),
       1 ≤ ncols → (completeRows rows).length ≤ (ncols - 1) + 2 →
       medAnalysis ols k ncols rows = Except.error AnalysisError.insufficientData)
    ∧ (∀ (ols : List (List ℚ) → List ℚ → List ℚ) (ncols : ℕ)
       (rows : List (List (Option ℚ))),
       (completeRows rows).length ≤ ncols + 2 →
       modmedAnalysis ols ncols rows = Except.error AnalysisError.insufficientData) := by
  constructor
  · intro ols k ncols rows h1 h2
    unfold medAnalysis
    rw [if_pos (by omega)]
  · intro ols ncols rows h
    unfold modmedAnalysis
    rw [if_pos (by omega)]

/-- Witness for C9: concrete tables with one incomplete row each, at the
boundary counts, abort with the insufficient-data error. -/
theorem insufficient_data_before_fit_witness :
    medAnalysis (fun _ _ => []) 1 3 c9rows
        = Except.error AnalysisError.insufficientData
    ∧ modmedAnalysis (fun _ _ => []) 4 c9rowsM
        = Except.error AnalysisError.insufficientData :=
  ⟨insufficient_data_before_fit.1 (fun _ _ => []) 1 3 c9rows (by norm_num)
      (by norm_num [completeRows, c9rows, allSomeRow, List.filterMap]),
   insufficient_data_before_fit.2 (fun _ _ => []) 4 c9rowsM
      (by norm_num [completeRows, c9rowsM, allSomeRow, List.filterMap])⟩

/-- Claim C2: per bootstrapped statistic, fewer than 10 finite draws gives
null `boot_se`/`ci_lower`/`ci_upper`/`significant`; otherwise the
(squared) standard error is the sample variance with the `n - 1` divisor
of the finite draws, the interval is the `(α/2, 1 - α/2)` empirical
percentile pair with `α = 1 - ci_level`, and the flag is true exactly when
the interval excludes zero. -/
theorem bootstrap_ci_aggregation (boots : List (Option ℚ)) (ciLevel : ℚ)
    (h0 : 0 < ciLevel) (h1 : ciLevel < 1) :
    ((boots.filterMap id).length < 10 →
      ciFromBoots boots ((1 - ciLevel) / 2) = none ∧
      significantOf (ciFromBoots boots ((1 - ciLevel) / 2)) = none)
    ∧ (10 ≤ (boots.filterMap id).length →
      ciFromBoots boots ((1 - ciLevel) / 2)
        = some (sampleVar (boots.filterMap id),
            percentile (boots.filterMap id) (((1 - ciLevel) / 2) * 100),
            percentile (boots.filterMap id) ((1 - (1 - ciLevel) / 2) * 100)) ∧
      (significantOf (ciFromBoots boots ((1 - ciLevel) / 2)) = some true ↔
        (0 : ℚ) ∉ Set.Icc
          (percentile (boots.filterMap id) (((1 - ciLevel) / 2) * 100))
          (percentile (boots.filterMap id) ((1 - (1 - ciLevel) / 2) * 100)))) := by
  constructor
  · intro h
    have hz : ciFromBoots boots ((1 - ciLevel) / 2) = none := by
      unfold ciFromBoots
      rw [if_pos h]
    exact ⟨hz, by rw [hz]; rfl⟩
  · intro h
    have hz : ciFromBoots boots ((1 - ciLevel) / 2)
        = some (sampleVar (boots.filterMap id),
            percentile (boots.filterMap id) (((1 - ciLevel) / 2) * 100),
            percentile (boots.filterMap id) ((1 - (1 - ciLevel) / 2) * 100)) := by
      unfold ciFromBoots
      rw [if_neg (by omega)]
    refine ⟨hz, ?_⟩
    rw [hz]
    simp only [significantOf, Option.some.injEq, decide_eq_true_eq, Set.mem_Icc]

/-- Witness for C2 at a concrete 12-draw bootstrap distribution: the CI is
`[5, 5]`, which excludes zero, so the flag is true. -/
theorem bootstrap_ci_aggregation_witness :
    ciFromBoots (List.replicate 12 (some (5 : ℚ))) ((1 - 95 / 100) / 2)
        = some (0, 5, 5)
    ∧ significantOf
        (ciFromBoots (List.replicate 12 (some (5 : ℚ))) ((1 - 95 / 100) / 2))
        = some true := by
  have h := ((bootstrap_ci_aggregation (List.replicate 12 (some (5 : ℚ)))
      (95 / 100) (by norm_num) (by norm_num)).2 (by norm_num [List.filterMap])).1
  constructor
  · rw [h]
    norm_num [sampleVar, percentile, meanQ, List.filterMap, List.replicate,
      List.insertionSort, List.orderedInsert, Int.toNat, List.getD]
  · rw [h]
    norm_num [sampleVar, percentile, meanQ, List.filterMap, List.replicate,
      List.insertionSort, List.orderedInsert, Int.toNat, List.getD, significantOf]

/-- Claim C5 (corrected part proved): in every bootstrap iteration of the
centered moderated analysis, the interaction columns are recomputed from
the resampled values (moderated_mediation.py 420-421), but the X values in
the resample are the full-sample-centered ones: each resampled X entry is
the raw value minus the mean of the *original full sample* (line 252), not
the mean of the resample. -/
theorem modmed_bootstrap_recompute (x m w y : List ℚ) (idx : List ℕ) :
    (resampleTable (prepTable true x m w y) idx).xw
        = List.zipWith (fun a b => a * b) (gather (centerCol x) idx)
            (gather (centerCol w) idx)
    ∧ (resampleTable (prepTable true x m w y) idx).mw
        = List.zipWith (fun a b => a * b) (gather m idx)
            (gather (centerCol w) idx)
    ∧ (∀ p, p < idx.length → idx.getD p 0 < x.length →
        (resampleTable (prepTable true x m w y) idx).x.getD p 0
          = x.getD (idx.getD p 0) 0 - meanQ x) := by
  refine ⟨rfl, rfl, ?_⟩
  intro p hp hb
  show (gather (centerCol x) idx).getD p 0 = _
  unfold gather
  rw [listGetD_map (fun i => (centerCol x).getD i 0) idx p hp 0 0]
  unfold centerCol
  rw [listGetD_map (fun v => v - meanQ x) x (idx.getD p 0) hb 0 0]

/-- Counterexample for C5 as stated: on a concrete centered analysis and a
concrete resample, the bootstrap table's X column differs from the one the
claim describes (resample-specific centering), and its mean is not zero —
so the centering constants are the full-sample means, not the resample
means. -/
theorem modmed_centering_from_full_sample :
    (resampleTable (prepTable true [0, 2, 4] [1, 1, 1] [1, 3, 5] [0, 0, 0])
        [0, 0, 1]).x
      ≠ (resampleTableSpec true [0, 2, 4] [1, 1, 1] [1, 3, 5] [0, 0, 0]
        [0, 0, 1]).x
    ∧ meanQ ((resampleTable (prepTable true [0, 2, 4] [1, 1, 1] [1, 3, 5]
        [0, 0, 0]) [0, 0, 1]).x) ≠ 0
    ∧ meanQ ((resampleTableSpec true [0, 2, 4] [1, 1, 1] [1, 3, 5] [0, 0, 0]
        [0, 0, 1]).x) = 0 := by
  norm_num [resampleTable, resampleTableSpec, prepTable, centerCol, gather,
    meanQ, List.zipWith]

/-- Witness for C5's amended theorem at a concrete table and resample. -/
theorem modmed_bootstrap_recompute_witness :
    (resampleTable (prepTable true [0, 2, 4] [1, 1, 1] [1, 3, 5] [0, 0, 0])
        [0, 0, 1]).x.getD 0 0
      = ([0, 2, 4] : List ℚ).getD (([0, 0, 1] : List ℕ).getD 0 0) 0
          - meanQ [0, 2, 4] :=
  (modmed_bootstrap_recompute [0, 2, 4] [1, 1, 1] [1, 3, 5] [0, 0, 0]
    [0, 0, 1]).2.2 0 (by norm_num) (by norm_num)

/-- Claim C8: a failed refit inside a bootstrap iteration never propagates:
the driver returns one slot per iteration regardless of failures, a
failing OLS call (either regression) makes that iteration contribute
`none` (a non-finite value) to the distribution, and changing what happens
at iteration `i` leaves every other iteration's slot unchanged. -/
theorem bootstrap_failure_isolation (ols : OLSExc) (dd : MedDataP) (mn : ℕ)
    (idxs : List (List ℕ)) (i j : ℕ) (v : List ℕ)
    (hj : j < idxs.length) (hij : j ≠ i) :
    (bootstrapIndirect ols dd mn idxs).length = idxs.length
    ∧ (i < idxs.length →
        (bootstrapIndirect ols dd mn idxs).getD i none
          = bootIterMed ols dd mn (idxs.getD i []))
    ∧ (∀ e, ols (medAColsOf dd (idxs.getD i []))
          (gather (dd.meds.getD mn []) (idxs.getD i [])) = .error e →
        bootIterMed ols dd mn (idxs.getD i []) = none)
    ∧ (∀ e, ols (medDColsOf dd (idxs.getD i []))
          (gather dd.y (idxs.getD i [])) = .error e →
        bootIterMed ols dd mn (idxs.getD i []) = none)
    ∧ (bootstrapIndirect ols dd mn (idxs.set i v)).getD j none
        = (bootstrapIndirect ols dd mn idxs).getD j none := by
  refine ⟨List.length_map _ _, ?_, ?_, ?_, ?_⟩
  · intro hi
    exact listGetD_map (bootIterMed ols dd mn) idxs i hi none []
  · intro e he
    unfold bootIterMed
    rw [he]
  · intro e he
    unfold bootIterMed
    rw [he]
    cases ols (medAColsOf dd (idxs.getD i []))
      (gather (dd.meds.getD mn []) (idxs.getD i [])) <;> rfl
  · unfold bootstrapIndirect
    rw [List.map_set]
    exact listGetD_set_ne _ i j _ none hij

/-- Witness for C8: an always-singular OLS collaborator still yields one
slot per iteration, and the failing iteration's slot is `none`. -/
theorem bootstrap_failure_isolation_witness :
    (bootstrapIndirect (fun _ _ => Except.error FitError.singularDesign)
        c8dd 0 [[0, 1], [1, 0]]).length = 2
    ∧ bootIterMed (fun _ _ => Except.error FitError.singularDesign) c8dd 0
        (([[0, 1], [1, 0]] : List (List ℕ)).getD 0 []) = none := by
  have h := bootstrap_failure_isolation
    (fun _ _ => Except.error FitError.singularDesign) c8dd 0
    [[0, 1], [1, 0]] 0 1 [0, 0] (by norm_num) (by norm_num)
  exact ⟨h.1, h.2.2.1 FitError.singularDesign rfl⟩

/-! ### Johnson-Neyman helper lemmas -/

theorem quadratic_root_eval (qa qb qc e : ℝ) (hqa : qa ≠ 0)
    (he : e ^ 2 = qb ^ 2 - 4 * qa * qc) :
    qa * ((-qb + e) / (2 * qa)) ^ 2 + qb * ((-qb + e) / (2 * qa)) + qc = 0 := by
  have hkey : qa * ((-qb + e) / (2 * qa)) ^ 2 + qb * ((-qb + e) / (2 * qa)) + qc
      = (e ^ 2 - (qb ^ 2 - 4 * qa * qc)) / (4 * qa) := by
    field_simp
    ring
  rw [hkey, he]
  simp

theorem jn_roots_are_roots (bx bxw vbx vbxw cvxw tcrit : ℝ)
    (hqa : jnQa bxw tcrit vbxw ≠ 0)
    (hd : 0 ≤ jnDisc bx bxw vbx vbxw cvxw tcrit) :
    (jnQa bxw tcrit vbxw * (jnRoots bx bxw vbx vbxw cvxw tcrit).1 ^ 2
      + jnQb bx bxw tcrit cvxw * (jnRoots bx bxw vbx vbxw cvxw tcrit).1
      + jnQc bx tcrit vbx = 0)
    ∧ (jnQa bxw tcrit vbxw * (jnRoots bx bxw vbx vbxw cvxw tcrit).2 ^ 2
      + jnQb bx bxw tcrit cvxw * (jnRoots bx bxw vbx vbxw cvxw tcrit).2
      + jnQc bx tcrit vbx = 0) := by
  have hs : Real.sqrt (jnDisc bx bxw vbx vbxw cvxw tcrit) ^ 2
      = jnQb bx bxw tcrit cvxw ^ 2
        - 4 * jnQa bxw tcrit vbxw * jnQc bx tcrit vbx := by
    rw [Real.sq_sqrt hd]
    rfl
  constructor
  · have h1 : (jnRoots bx bxw vbx vbxw cvxw tcrit).1
        = (-jnQb bx bxw tcrit cvxw
            + (-Real.sqrt (jnDisc bx bxw vbx vbxw cvxw tcrit)))
          / (2 * jnQa bxw tcrit vbxw) := by
      unfold jnRoots
      ring_nf
    rw [h1]
    exact quadratic_root_eval _ _ _ _ hqa (by rw [neg_pow]; simpa using hs)
  · have h2 : (jnRoots bx bxw vbx vbxw cvxw tcrit).2
        = (-jnQb bx bxw tcrit cvxw
            + Real.sqrt (jnDisc bx bxw vbx vbxw cvxw tcrit))
          / (2 * jnQa bxw tcrit vbxw) := rfl
    rw [h2]
    exact quadratic_root_eval _ _ _ _ hqa hs

/-- Claim C6 (corrected form proved): the Johnson-Neyman branch structure.
`A` exactly zero gives null bounds and the negligible-interaction note; a
negative discriminant gives null bounds, a null percentage, and the fixed
no-real-roots note (which does not determine whether the effect is
uniformly significant or uniformly non-significant); otherwise the two
bounds are genuine roots of the quadratic, sorted, the significant side is
determined by the midpoint test, and the percentage field is populated. -/
theorem jn_branch_structure (bx bxw vbx vbxw cvxw tcrit : ℝ) (wVec : List ℝ) :
    (jnQa bxw tcrit vbxw = 0 →
      jnOut bx bxw vbx vbxw cvxw tcrit wVec = ⟨none, none, none, JNNote.negligible⟩)
    ∧ (jnQa bxw tcrit vbxw ≠ 0 → jnDisc bx bxw vbx vbxw cvxw tcrit < 0 →
      jnOut bx bxw vbx vbxw cvxw tcrit wVec = ⟨none, none, none, JNNote.noRealRoots⟩)
    ∧ (jnQa bxw tcrit vbxw ≠ 0 → 0 ≤ jnDisc bx bxw vbx vbxw cvxw tcrit →
      ∃ lo hi, (jnOut bx bxw vbx vbxw cvxw tcrit wVec).lower = some lo
        ∧ (jnOut bx bxw vbx vbxw cvxw tcrit wVec).upper = some hi
        ∧ lo ≤ hi
        ∧ jnQa bxw tcrit vbxw * lo ^ 2 + jnQb bx bxw tcrit cvxw * lo
            + jnQc bx tcrit vbx = 0
        ∧ jnQa bxw tcrit vbxw * hi ^ 2 + jnQb bx bxw tcrit cvxw * hi
            + jnQc bx tcrit vbx = 0
        ∧ ((jnOut bx bxw vbx vbxw cvxw tcrit wVec).note = JNNote.insideSig
            ↔ jnMidSig bx bxw vbx vbxw cvxw tcrit)
        ∧ (jnOut bx bxw vbx vbxw cvxw tcrit wVec).pct ≠ none) := by
  refine ⟨fun h => ?_, fun hqa hd => ?_, fun hqa hd => ?_⟩
  · unfold jnOut
    rw [if_pos h]
  · unfold jnOut
    rw [if_neg hqa, if_pos hd]
  · have hout : jnOut bx bxw vbx vbxw cvxw tcrit wVec
        = jnMain bx bxw vbx vbxw cvxw tcrit wVec := by
      unfold jnOut
      rw [if_neg hqa, if_neg (not_lt.mpr hd)]
    have hroots := jn_roots_are_roots bx bxw vbx vbxw cvxw tcrit hqa hd
    refine ⟨min (jnRoots bx bxw vbx vbxw cvxw tcrit).1
        (jnRoots bx bxw vbx vbxw cvxw tcrit).2,
      max (jnRoots bx bxw vbx vbxw cvxw tcrit).1
        (jnRoots bx bxw vbx vbxw cvxw tcrit).2,
      by rw [hout]; rfl, by rw [hout]; rfl, min_le_max, ?_, ?_, ?_, ?_⟩
    · rcases min_choice (jnRoots bx bxw vbx vbxw cvxw tcrit).1
          (jnRoots bx bxw vbx vbxw cvxw tcrit).2 with hm | hm <;> rw [hm]
      · exact hroots.1
      · exact hroots.2
    · rcases max_choice (jnRoots bx bxw vbx vbxw cvxw tcrit).1
          (jnRoots bx bxw vbx vbxw cvxw tcrit).2 with hm | hm <;> rw [hm]
      · exact hroots.1
      · exact hroots.2
    · rw [hout]
      by_cases hmid : jnMidSig bx bxw vbx vbxw cvxw tcrit
      · have : (jnMain bx bxw vbx vbxw cvxw tcrit wVec).note = JNNote.insideSig := by
          unfold jnMain
          simp only [if_pos hmid]
        simp [this, hmid]
      · have : (jnMain bx bxw vbx vbxw cvxw tcrit wVec).note = JNNote.outsideSig := by
          unfold jnMain
          simp only [if_neg hmid]
        simp [this, hmid]
    · rw [hout]
      unfold jnMain
      simp

/-- Witness for C6's theorem: a concrete input with `A = 0` yields the
negligible record, and a concrete input with negative discriminant yields
the undetermined no-real-roots record. -/
theorem jn_branch_structure_witness :
    jnOut 1 2 1 1 0 2 [] = ⟨none, none, none, JNNote.negligible⟩
    ∧ jnOut 1 1 1 1 0 2 [0] = ⟨none, none, none, JNNote.noRealRoots⟩ :=
  ⟨(jn_branch_structure 1 2 1 1 0 2 []).1 (by norm_num [jnQa]),
   (jn_branch_structure 1 1 1 1 0 2 [0]).2.1 (by norm_num [jnQa])
     (by norm_num [jnDisc, jnQa, jnQb, jnQc])⟩

/-- Counterexample for C6 as stated: two parameter sets, both with negative
discriminant, one significant at the sample mean of W and one not, produce
the *same* Johnson-Neyman output — so the negative-discriminant branch
does not determine which of the two uniform cases holds (it never
evaluates significance at the sample mean of W). -/
theorem jn_no_determination_at_mean :
    jnDisc 3 3 1 1 2 2 < 0 ∧ jnDisc 1 1 1 1 0 2 < 0
    ∧ sigAtW 3 3 1 1 2 2 (meanR [0]) ∧ ¬ sigAtW 1 1 1 1 0 2 (meanR [0])
    ∧ jnOut 3 3 1 1 2 2 [0] = jnOut 1 1 1 1 0 2 [0] := by
  have h1 : jnOut 3 3 1 1 2 2 [0] = ⟨none, none, none, JNNote.noRealRoots⟩ :=
    (jn_branch_structure 3 3 1 1 2 2 [0]).2.1 (by norm_num [jnQa])
      (by norm_num [jnDisc, jnQa, jnQb, jnQc])
  have h2 : jnOut 1 1 1 1 0 2 [0] = ⟨none, none, none, JNNote.noRealRoots⟩ :=
    (jn_branch_structure 1 1 1 1 0 2 [0]).2.1 (by norm_num [jnQa])
      (by norm_num [jnDisc, jnQa, jnQb, jnQc])
  refine ⟨by norm_num [jnDisc, jnQa, jnQb, jnQc],
    by norm_num [jnDisc, jnQa, jnQb, jnQc], ?_, ?_, by rw [h1, h2]⟩
  · show (2 : ℝ) ^ 2 * condSlopeVar 1 1 2 (meanR [0]) < (3 + 3 * meanR [0]) ^ 2
    norm_num [condSlopeVar, meanR]
  · show ¬ ((2 : ℝ) ^ 2 * condSlopeVar 1 1 0 (meanR [0]) < (1 + 1 * meanR [0]) ^ 2)
    norm_num [condSlopeVar, meanR]

/-! ### Enumerator lemmas for C1 -/

theorem sum_map_add_one (l : List ℕ) (f : ℕ → ℕ) :
    (l.map (fun x => f x + 1)).sum = (l.map f).sum + l.length := by
  induction l with
  | nil => rfl
  | cons a t ih =>
    simp only [List.map_cons, List.sum_cons, List.length_cons, ih]
    omega

theorem sum_range_sub (k : ℕ) :
    2 * (((List.range k).map (fun l => k - l)).sum) = k * (k + 1) := by
  induction k with
  | zero => rfl
  | succ n ih =>
    rw [List.range_succ, List.map_append, List.sum_append]
    have hmap : (List.range n).map (fun l => n + 1 - l)
        = (List.range n).map (fun l => (n - l) + 1) :=
      List.map_congr_left (fun a ha => by
        have := List.mem_range.mp ha
        omega)
    rw [hmap, sum_map_add_one, List.length_range]
    simp only [List.map_cons, List.sum_cons, List.map_nil, List.sum_nil]
    have heta : (List.range n).map (fun l => n - l)
        = (List.range n).map (HSub.hSub n) := rfl
    rw [heta] at ih
    have h3 : n + 1 - n = 1 := by omega
    rw [h3]
    nlinarith [ih]

theorem slice_length {α : Type} (meds : List α) (s l : ℕ)
    (h : s < meds.length - l) :
    ((meds.drop s).take (l + 1)).length = l + 1 := by
  rw [List.length_take, List.length_drop]
  omega

theorem slice_head {α : Type} (meds : List α) (s l : ℕ)
    (h : s < meds.length - l) :
    ∃ hb : s < meds.length,
      ((meds.drop s).take (l + 1)).getD 0 (meds.get ⟨s, by omega⟩)
        = meds.get ⟨s, hb⟩ := by
  refine ⟨by omega, ?_⟩
  have hlt : 0 < ((meds.drop s).take (l + 1)).length := by
    rw [slice_length meds s l h]
    omega
  rw [List.getD_eq_getElem?_getD, List.getElem?_eq_getElem hlt]
  simp only [Option.getD_some]
  rw [List.getElem_take, List.getElem_drop]
  simp [List.get_eq_getElem]

theorem dChain_eq_prod {α : Type} (d : α → α → ℚ) (u : α) (t : List α) :
    dChain d (u :: t)
      = ((List.zip (u :: t) t).map (fun q => d q.1 q.2)).prod := by
  induction t generalizing u with
  | nil => simp [dChain]
  | cons v t' ih =>
    show d u v * dChain d (v :: t') = _
    rw [ih v, List.zip_cons_cons]
    simp

theorem pointEst_eq_spec {α : Type} (a : α → ℚ) (d : α → α → ℚ) (b : α → ℚ)
    (p : List α) (hp : p ≠ []) :
    pointEst a d b p
      = a (p.head hp)
        * ((List.zip p p.tail).map (fun q => d q.1 q.2)).prod
        * b (p.getLast hp) := by
  cases p with
  | nil => exact absurd rfl hp
  | cons u t =>
    show a u * dChain d (u :: t) * b _ = _
    rw [dChain_eq_prod]
    rfl

theorem length_indirectPaths {α : Type} (meds : List α) :
    2 * (indirectPaths meds).length = meds.length * (meds.length + 1) := by
  unfold indirectPaths
  rw [List.length_flatMap]
  have hmap : List.map
      (List.length ∘ fun l => (List.range (meds.length - l)).map
        (fun s => (meds.drop s).take (l + 1)))
      (List.range meds.length)
      = (List.range meds.length).map (fun l => meds.length - l) :=
    List.map_congr_left (fun a _ => by
      simp [Function.comp, List.length_map, List.length_range])
  rw [hmap]
  exact sum_range_sub meds.length

theorem mem_indirectPaths {α : Type} (meds : List α) (p : List α) :
    p ∈ indirectPaths meds ↔ p ≠ [] ∧ ∃ u v, u ++ p ++ v = meds := by
  unfold indirectPaths
  constructor
  · intro hp
    rcases List.mem_flatMap.mp hp with ⟨l, hl, hpl⟩
    rcases List.mem_map.mp hpl with ⟨s, hs, rfl⟩
    have hlk := List.mem_range.mp hl
    have hsk := List.mem_range.mp hs
    constructor
    · intro hnil
      have hlen : ((meds.drop s).take (l + 1)).length = l + 1 :=
        slice_length meds s l hsk
      rw [hnil] at hlen
      simp at hlen
    · refine ⟨meds.take s, meds.drop (s + (l + 1)), ?_⟩
      have h1 : (meds.drop s).take (l + 1) ++ meds.drop (s + (l + 1))
          = meds.drop s := by
        rw [← List.drop_drop]
        exact List.take_append_drop (l + 1) (meds.drop s)
      rw [List.append_assoc, h1]
      exact List.take_append_drop s meds
  · rintro ⟨hne, u, v, hm⟩
    have hplen : 0 < p.length := List.length_pos.mpr hne
    apply List.mem_flatMap.mpr
    refine ⟨p.length - 1, List.mem_range.mpr ?_, ?_⟩
    · rw [← hm]
      simp only [List.length_append]
      omega
    · apply List.mem_map.mpr
      refine ⟨u.length, List.mem_range.mpr ?_, ?_⟩
      · rw [← hm]
        simp only [List.length_append]
        omega
      · have h1 : meds.drop u.length = p ++ v := by
          rw [← hm, List.append_assoc]
          exact List.drop_left u (p ++ v)
        rw [h1, show p.length - 1 + 1 = p.length by omega]
        exact List.take_left p v

theorem nodup_indirectPaths {α : Type} (meds : List α) (h : meds.Nodup) :
    (indirectPaths meds).Nodup := by
  unfold indirectPaths
  apply List.nodup_flatMap.mpr
  constructor
  · intro l hl
    apply List.Nodup.map_on ?_ (List.nodup_range _)
    intro s hs s' hs' heq
    have hsk := List.mem_range.mp hs
    have hsk' := List.mem_range.mp hs'
    have hb : s < meds.length := by omega
    have hb' : s' < meds.length := by omega
    have hlen1 : 0 < ((meds.drop s).take (l + 1)).length := by
      rw [slice_length meds s l hsk]
      omega
    have hlen2 : 0 < ((meds.drop s').take (l + 1)).length := by
      rw [slice_length meds s' l hsk']
      omega
    have e1 : ((meds.drop s).take (l + 1)).getD 0 (meds.get ⟨s, hb⟩)
        = meds.get ⟨s, hb⟩ := by
      rw [List.getD_eq_getElem?_getD, List.getElem?_eq_getElem hlen1]
      simp only [Option.getD_some]
      rw [List.getElem_take, List.getElem_drop]
      simp [List.get_eq_getElem]
    have e2 : ((meds.drop s').take (l + 1)).getD 0 (meds.get ⟨s, hb⟩)
        = meds.get ⟨s', hb'⟩ := by
      rw [List.getD_eq_getElem?_getD, List.getElem?_eq_getElem hlen2]
      simp only [Option.getD_some]
      rw [List.getElem_take, List.getElem_drop]
      simp [List.get_eq_getElem]
    have hee : meds.get ⟨s, hb⟩ = meds.get ⟨s', hb'⟩ := by
      rw [← e1, ← e2, heq]
    have hfin : (⟨s, hb⟩ : Fin meds.length) = ⟨s', hb'⟩ :=
      (List.Nodup.get_inj_iff h).mp hee
    exact congrArg Fin.val hfin
  · apply (List.pairwise_lt_range _).imp
    intro l l' hll p hp hp'
    rcases List.mem_map.mp hp with ⟨s, hs, rfl⟩
    rcases List.mem_map.mp hp' with ⟨s', hs', heq⟩
    have h1 := slice_length meds s l (List.mem_range.mp hs)
    have h2 := slice_length meds s' l' (List.mem_range.mp hs')
    rw [heq, h1] at h2
    omega

/-- Claim C1: for `k ≥ 1` ordered mediators, the enumerator produces
exactly the nonempty contiguous sub-sequences of the mediator list —
`k(k+1)/2` chains (stated multiplicatively as `2·count = k(k+1)`),
pairwise distinct when the mediator names are distinct (which the source
validates), degenerating to the single chain `[meds]` when `k = 1` — and
each chain's point estimate is the product of the `a` edge into the first
mediator, the `d` edges of the adjacent pairs, and the `b` edge out of the
last mediator. -/
theorem serial_enumerator_correct {α : Type} (meds : List α)
    (hnd : meds.Nodup) (hne : meds ≠ [])
    (a : α → ℚ) (d : α → α → ℚ) (b : α → ℚ) :
    2 * (indirectPaths meds).length = meds.length * (meds.length + 1)
    ∧ (indirectPaths meds).Nodup
    ∧ (∀ p, p ∈ indirectPaths meds ↔ p ≠ [] ∧ ∃ u v, u ++ p ++ v = meds)
    ∧ (meds.length = 1 → indirectPaths meds = [meds])
    ∧ (∀ p, p ∈ indirectPaths meds → ∀ hp : p ≠ [],
        pointEst a d b p
          = a (p.head hp)
            * ((List.zip p p.tail).map (fun q => d q.1 q.2)).prod
            * b (p.getLast hp)) := by
  refine ⟨length_indirectPaths meds, nodup_indirectPaths meds hnd,
    mem_indirectPaths meds, ?_, ?_⟩
  · intro h1
    match meds, h1 with
    | [m], _ => rfl
  · intro p _ hp
    exact pointEst_eq_spec a d b p hp

/-- Witness for C1 at three distinct mediators (and at one mediator for
the degenerate case). -/
theorem serial_enumerator_correct_witness :
    2 * (indirectPaths ([0, 1, 2] : List ℕ)).length = 3 * (3 + 1)
    ∧ (indirectPaths ([0, 1, 2] : List ℕ)).Nodup
    ∧ indirectPaths ([7] : List ℕ) = [[7]]
    ∧ pointEst (fun _ => (2 : ℚ)) (fun _ _ => 3) (fun _ => 5) [0, 1]
        = 2 * ((([0, 1] : List ℕ).zip [1]).map (fun _ => (3 : ℚ))).prod * 5 := by
  have h3 := serial_enumerator_correct ([0, 1, 2] : List ℕ) (by decide)
    (by decide) (fun _ => (2 : ℚ)) (fun _ _ => 3) (fun _ => 5)
  have h1 := serial_enumerator_correct ([7] : List ℕ) (by decide)
    (by decide) (fun _ => (2 : ℚ)) (fun _ _ => 3) (fun _ => 5)
  refine ⟨h3.1, h3.2.1, h1.2.2.2.1 rfl, ?_⟩
  have hmem : ([0, 1] : List ℕ) ∈ indirectPaths ([0, 1, 2] : List ℕ) :=
    (h3.2.2.1 [0, 1]).mpr (by
      refine ⟨by decide, [], [2], ?_⟩
      rfl)
  have := h3.2.2.2.2 [0, 1] hmem (by decide)
  simpa using this

/-! ### Claim C4: the total-effect decomposition -/

/-- Counterexample for C4 as stated: on the eight-observation serial
dataset with three mediators, the OLS collaborator `c4Oracle` satisfies
the normal-equations contract `IsOLS` at every one of the five designs the
engine submits (so it returns the least-squares coefficients), yet the
reported total effect is 8 while direct + sum of the enumerated
(contiguous-chain) indirect estimates is 1 + 6 = 7: the enumerator omits
the non-contiguous chain X→M1→M3→Y whose product a₁·d₁₃·b₃ = 1. -/
theorem serial_decomposition_gap :
    IsOLS ((onesQ c4x.length :: c4x :: c4meds.take 0) ++ []) (c4meds.getD 0 [])
      (serialMedEqCoefs c4Oracle c4x c4meds [] 0)
    ∧ IsOLS ((onesQ c4x.length :: c4x :: c4meds.take 1) ++ []) (c4meds.getD 1 [])
      (serialMedEqCoefs c4Oracle c4x c4meds [] 1)
    ∧ IsOLS ((onesQ c4x.length :: c4x :: c4meds.take 2) ++ []) (c4meds.getD 2 [])
      (serialMedEqCoefs c4Oracle c4x c4meds [] 2)
    ∧ IsOLS ((onesQ c4x.length :: c4x :: c4meds) ++ []) c4y
      (serialYEqCoefs c4Oracle c4x c4meds [] c4y)
    ∧ IsOLS ((onesQ c4x.length :: [c4x]) ++ []) c4y
      (serialTotalEqCoefs c4Oracle c4x [] c4y)
    ∧ serialC c4Oracle c4x [] c4y = 8
    ∧ serialCPrime c4Oracle c4x c4meds [] c4y = 1
    ∧ serialTotalIndirect c4Oracle c4x c4meds [] c4y = 6
    ∧ serialC c4Oracle c4x [] c4y
        ≠ serialCPrime c4Oracle c4x c4meds [] c4y
          + serialTotalIndirect c4Oracle c4x c4meds [] c4y := by
  have hc : serialC c4Oracle c4x [] c4y = 8 := by
    norm_num [serialC, serialTotalEqCoefs, c4Oracle, c4x, c4y, onesQ]
  have hcp : serialCPrime c4Oracle c4x c4meds [] c4y = 1 := by
    norm_num [serialCPrime, serialYEqCoefs, c4Oracle, c4meds, c4x, c4y, onesQ]
  have hti : serialTotalIndirect c4Oracle c4x c4meds [] c4y = 6 := by
    norm_num [serialTotalIndirect, serialPointEsts, indirectPaths, pointEst,
      dChain, serialA, serialB, serialD, serialMedEqCoefs, serialYEqCoefs,
      c4Oracle, c4meds, c4x, c4m1, c4m2, c4m3, c4y, onesQ, List.range_succ]
  refine ⟨?_, ?_, ?_, ?_, ?_, hc, hcp, hti, ?_⟩
  · norm_num [IsOLS, serialMedEqCoefs, c4Oracle, c4meds, c4x, c4m1, c4y,
      onesQ, dot, residVec, predVec, List.zipWith]
  · norm_num [IsOLS, serialMedEqCoefs, c4Oracle, c4meds, c4x, c4m1, c4m2, c4y,
      onesQ, dot, residVec, predVec, List.zipWith]
  · norm_num [IsOLS, serialMedEqCoefs, c4Oracle, c4meds, c4x, c4m1, c4m2,
      c4m3, c4y, onesQ, dot, residVec, predVec, List.zipWith]
  · norm_num [IsOLS, serialYEqCoefs, c4Oracle, c4meds, c4x, c4m1, c4m2, c4m3,
      c4y, onesQ, dot, residVec, predVec, List.zipWith]
  · norm_num [IsOLS, serialTotalEqCoefs, c4Oracle, c4meds, c4x, c4y, onesQ,
      dot, residVec, predVec, List.zipWith]
  · rw [hc, hcp, hti]
    norm_num

theorem list_range_map_sum (k : ℕ) (f : ℕ → ℚ) :
    ((List.range k).map f).sum = ∑ i ∈ Finset.range k, f i := by
  induction k with
  | zero => rfl
  | succ n ih =>
    rw [List.range_succ, List.map_append, List.sum_append,
      Finset.sum_range_succ, ih]
    simp

/-- Claim C4 amended: the decomposition `total = direct + Σ enumerated
indirect` holds for the parallel topology (any number of mediators) and
for serial topologies with at most two mediators, on any full-sample fit
whose equations satisfy the OLS normal equations (stated here in
moment form for the intercept row and the X row of each equation, the
defining contract of the external OLS primitive; covariate-free designs);
for serial topologies with three or more mediators the identity fails
(`serial_decomposition_gap`) because the contiguous-chain enumerator
omits the non-contiguous routes that the fitted equations also estimate. -/
theorem total_effect_decomposition_low_order :
    (∀ (n k : ℕ) (x y : Fin n → ℚ) (m : ℕ → Fin n → ℚ)
       (a0 a b : ℕ → ℚ) (b0 cp t0 c : ℚ),
       ((n : ℚ) * (∑ j, x j * x j) - (∑ j, x j) ^ 2 ≠ 0) →
       (∀ i, i < k → (∑ j, m i j) = (n : ℚ) * a0 i + a i * (∑ j, x j)) →
       (∀ i, i < k → (∑ j, x j * m i j)
          = a0 i * (∑ j, x j) + a i * (∑ j, x j * x j)) →
       ((∑ j, y j) = (n : ℚ) * b0 + cp * (∑ j, x j)
          + ∑ i ∈ Finset.range k, b i * (∑ j, m i j)) →
       ((∑ j, x j * y j) = b0 * (∑ j, x j) + cp * (∑ j, x j * x j)
          + ∑ i ∈ Finset.range k, b i * (∑ j, x j * m i j)) →
       ((∑ j, y j) = (n : ℚ) * t0 + c * (∑ j, x j)) →
       ((∑ j, x j * y j) = t0 * (∑ j, x j) + c * (∑ j, x j * x j)) →
       c = cp + parallelTotalIndirect a b k)
    ∧ (∀ (n : ℕ) (x m1 m2 y : Fin n → ℚ)
       (a10 a1 a20 a2 d12 b0 cp b1 b2 t0 c : ℚ),
       ((n : ℚ) * (∑ j, x j * x j) - (∑ j, x j) ^ 2 ≠ 0) →
       ((∑ j, m1 j) = (n : ℚ) * a10 + a1 * (∑ j, x j)) →
       ((∑ j, x j * m1 j) = a10 * (∑ j, x j) + a1 * (∑ j, x j * x j)) →
       ((∑ j, m2 j) = (n : ℚ) * a20 + a2 * (∑ j, x j)
          + d12 * (∑ j, m1 j)) →
       ((∑ j, x j * m2 j) = a20 * (∑ j, x j) + a2 * (∑ j, x j * x j)
          + d12 * (∑ j, x j * m1 j)) →
       ((∑ j, y j) = (n : ℚ) * b0 + cp * (∑ j, x j) + b1 * (∑ j, m1 j)
          + b2 * (∑ j, m2 j)) →
       ((∑ j, x j * y j) = b0 * (∑ j, x j) + cp * (∑ j, x j * x j)
          + b1 * (∑ j, x j * m1 j) + b2 * (∑ j, x j * m2 j)) →
       ((∑ j, y j) = (n : ℚ) * t0 + c * (∑ j, x j)) →
       ((∑ j, x j * y j) = t0 * (∑ j, x j) + c * (∑ j, x j * x j)) →
       c = cp + ((indirectPaths ([0, 1] : List ℕ)).map
            (pointEst (fun i => [a1, a2].getD i 0) (fun _ _ => d12)
              (fun i => [b1, b2].getD i 0))).sum) := by
  constructor
  · intro n k x y m a0 a b b0 cp t0 c hSxx hM1 hMx hY1 hYx hT1 hTx
    have hT : (n : ℚ) * (∑ j, x j * y j) - (∑ j, x j) * (∑ j, y j)
        = c * ((n : ℚ) * (∑ j, x j * x j) - (∑ j, x j) ^ 2) := by
      linear_combination (n : ℚ) * hTx - (∑ j, x j) * hT1
    have hpush : (n : ℚ) * (∑ i ∈ Finset.range k, b i * (∑ j, x j * m i j))
        - (∑ j, x j) * (∑ i ∈ Finset.range k, b i * (∑ j, m i j))
        = ∑ i ∈ Finset.range k,
            b i * ((n : ℚ) * (∑ j, x j * m i j)
              - (∑ j, x j) * (∑ j, m i j)) := by
      rw [Finset.mul_sum, Finset.mul_sum, ← Finset.sum_sub_distrib]
      exact Finset.sum_congr rfl (fun i _ => by ring)
    have hYrel : (n : ℚ) * (∑ j, x j * y j) - (∑ j, x j) * (∑ j, y j)
        = cp * ((n : ℚ) * (∑ j, x j * x j) - (∑ j, x j) ^ 2)
          + ∑ i ∈ Finset.range k,
              b i * ((n : ℚ) * (∑ j, x j * m i j)
                - (∑ j, x j) * (∑ j, m i j)) := by
      linear_combination (n : ℚ) * hYx - (∑ j, x j) * hY1 + hpush
    have hsum : ∀ i ∈ Finset.range k,
        b i * ((n : ℚ) * (∑ j, x j * m i j) - (∑ j, x j) * (∑ j, m i j))
          = a i * b i * ((n : ℚ) * (∑ j, x j * x j) - (∑ j, x j) ^ 2) := by
      intro i hi
      have hi' := Finset.mem_range.mp hi
      linear_combination b i * (n : ℚ) * (hMx i hi')
        - b i * (∑ j, x j) * (hM1 i hi')
    have hY2 : (n : ℚ) * (∑ j, x j * y j) - (∑ j, x j) * (∑ j, y j)
        = (cp + ∑ i ∈ Finset.range k, a i * b i)
            * ((n : ℚ) * (∑ j, x j * x j) - (∑ j, x j) ^ 2) := by
      rw [hYrel, Finset.sum_congr rfl hsum, ← Finset.sum_mul]
      ring
    have hc2 : c = cp + ∑ i ∈ Finset.range k, a i * b i :=
      mul_right_cancel₀ hSxx (by rw [← hT, hY2])
    rw [hc2]
    unfold parallelTotalIndirect
    rw [list_range_map_sum]
  · intro n x m1 m2 y a10 a1 a20 a2 d12 b0 cp b1 b2 t0 c hSxx hM11 hM1x
      hM21 hM2x hY1 hYx hT1 hTx
    have hT : (n : ℚ) * (∑ j, x j * y j) - (∑ j, x j) * (∑ j, y j)
        = c * ((n : ℚ) * (∑ j, x j * x j) - (∑ j, x j) ^ 2) := by
      linear_combination (n : ℚ) * hTx - (∑ j, x j) * hT1
    have h1 : (n : ℚ) * (∑ j, x j * m1 j) - (∑ j, x j) * (∑ j, m1 j)
        = a1 * ((n : ℚ) * (∑ j, x j * x j) - (∑ j, x j) ^ 2) := by
      linear_combination (n : ℚ) * hM1x - (∑ j, x j) * hM11
    have h2 : (n : ℚ) * (∑ j, x j * m2 j) - (∑ j, x j) * (∑ j, m2 j)
        = a2 * ((n : ℚ) * (∑ j, x j * x j) - (∑ j, x j) ^ 2)
          + d12 * ((n : ℚ) * (∑ j, x j * m1 j)
            - (∑ j, x j) * (∑ j, m1 j)) := by
      linear_combination (n : ℚ) * hM2x - (∑ j, x j) * hM21
    have hy : (n : ℚ) * (∑ j, x j * y j) - (∑ j, x j) * (∑ j, y j)
        = cp * ((n : ℚ) * (∑ j, x j * x j) - (∑ j, x j) ^ 2)
          + b1 * ((n : ℚ) * (∑ j, x j * m1 j) - (∑ j, x j) * (∑ j, m1 j))
          + b2 * ((n : ℚ) * (∑ j, x j * m2 j)
            - (∑ j, x j) * (∑ j, m2 j)) := by
      linear_combination (n : ℚ) * hYx - (∑ j, x j) * hY1
    have hcs : c * ((n : ℚ) * (∑ j, x j * x j) - (∑ j, x j) ^ 2)
        = (cp + (a1 * b1 + (a2 * b2 + a1 * d12 * b2)))
            * ((n : ℚ) * (∑ j, x j * x j) - (∑ j, x j) ^ 2) := by
      linear_combination hy - hT + b1 * h1 + b2 * h2 + b2 * d12 * h1
    have hc2 : c = cp + (a1 * b1 + (a2 * b2 + a1 * d12 * b2)) :=
      mul_right_cancel₀ hSxx hcs
    have heval : ((indirectPaths ([0, 1] : List ℕ)).map
        (pointEst (fun i => [a1, a2].getD i 0) (fun _ _ => d12)
          (fun i => [b1, b2].getD i 0))).sum
        = a1 * b1 + (a2 * b2 + a1 * d12 * b2) := by
      have hip : indirectPaths ([0, 1] : List ℕ) = [[0], [1], [0, 1]] := rfl
      rw [hip]
      simp [pointEst, dChain, List.getD]
    rw [hc2, heval]

/-- Witness for C4's amended theorem: a two-observation exact-fit system
(all columns equal to X) satisfies every moment hypothesis, and the
decomposition holds with all indirect products zero. -/
theorem total_effect_decomposition_low_order_witness :
    (1 : ℚ) = 1 + parallelTotalIndirect (fun _ => 1) (fun _ => 0) 1
    ∧ (1 : ℚ) = 1 + ((indirectPaths ([0, 1] : List ℕ)).map
        (pointEst (fun i => [(1 : ℚ), 1].getD i 0) (fun _ _ => 0)
          (fun i => [(0 : ℚ), 0].getD i 0))).sum := by
  constructor
  · exact total_effect_decomposition_low_order.1 2 1
      (fun j => (j.val : ℚ)) (fun j => (j.val : ℚ)) (fun _ j => (j.val : ℚ))
      (fun _ => 0) (fun _ => 1) (fun _ => 0) 0 1 0 1
      (by norm_num [Fin.sum_univ_two])
      (fun i _ => by norm_num [Fin.sum_univ_two])
      (fun i _ => by norm_num [Fin.sum_univ_two])
      (by norm_num [Fin.sum_univ_two, Finset.sum_range_succ])
      (by norm_num [Fin.sum_univ_two, Finset.sum_range_succ])
      (by norm_num [Fin.sum_univ_two])
      (by norm_num [Fin.sum_univ_two])
  · exact total_effect_decomposition_low_order.2 2
      (fun j => (j.val : ℚ)) (fun j => (j.val : ℚ)) (fun j => (j.val : ℚ))
      (fun j => (j.val : ℚ)) 0 1 0 1 0 0 1 0 0 0 1
      (by norm_num [Fin.sum_univ_two])
      (by norm_num [Fin.sum_univ_two])
      (by norm_num [Fin.sum_univ_two])
      (by norm_num [Fin.sum_univ_two])
      (by norm_num [Fin.sum_univ_two])
      (by norm_num [Fin.sum_univ_two])
      (by norm_num [Fin.sum_univ_two])
      (by norm_num [Fin.sum_univ_two])
      (by norm_num [Fin.sum_univ_two])
